import Mathlib

/-!
Shallow embedding of the `splitText` implementation
(`src/unnamed/part_001`, lines 1184-1463): measurement of the original
text with word and break boundaries, construction of word and character
spans, kerning compensation, line detection, line wrapping, and the
returned revert handle.

JavaScript strings are sequences of UTF-16 code units; we model them as
`List Nat` and note that `text[i]` indexes a single code unit.  Layout
coordinates returned by the host rendering surface
(`range.getBoundingClientRect`, `span.getBoundingClientRect`) are inputs
to the algorithm, modelled as oracle functions into `ℚ`.
-/

/-- Whitespace word boundaries recognised by `measureOriginalText`:
space (32), newline (10), tab (9). -/
def isWhitespaceCU (c : Nat) : Bool := c == 32 || c == 10 || c == 9

/-- `BREAK_CHARS = new Set(["—", "–"])`: em dash U+2014 (8212) and
en dash U+2013 (8211). -/
def isBreakCU (c : Nat) : Bool := c == 8212 || c == 8211

/-- `MeasuredChar`: one measured character (a single UTF-16 code unit in
this implementation) and its left coordinate in the original render. -/
structure MeasuredChar where
  char : Nat
  left : ℚ
deriving DecidableEq, Repr

/-- `MeasuredWord`: the characters of one word, the left coordinate of
its first character, and the dash continuation flag. -/
structure MeasuredWord where
  chars : List MeasuredChar
  startLeft : ℚ
  noSpaceBefore : Bool
deriving DecidableEq, Repr

/-- The mutable state of the walk in `measureOriginalText`:
`words`, `currentWord`, `wordStartLeft`, `noSpaceBeforeNext`. -/
structure MeasureState where
  words : List MeasuredWord
  currentWord : List MeasuredChar
  wordStartLeft : Option ℚ
  noSpaceBeforeNext : Bool
deriving DecidableEq, Repr

/-- `pushWord`: if the current word is non-empty, emit it (with
`startLeft ?? 0`) and reset the per-word state. -/
def pushWord (s : MeasureState) : MeasureState :=
  if 0 < s.currentWord.length then
    { words := s.words ++
        [{ chars := s.currentWord,
           startLeft := s.wordStartLeft.getD 0,
           noSpaceBefore := s.noSpaceBeforeNext }],
      currentWord := [],
      wordStartLeft := none,
      noSpaceBeforeNext := false }
  else s

/-- One iteration of the character loop of `measureOriginalText` on the
code unit `c` whose measured left coordinate is `p`:
whitespace closes the current word; otherwise the character is recorded
(setting `wordStartLeft` if unset) and a break character additionally
closes the word and flags the next one with `noSpaceBefore`. -/
def measureChar (p : ℚ) (s : MeasureState) (c : Nat) : MeasureState :=
  if isWhitespaceCU c then pushWord s
  else
    let wsl : Option ℚ :=
      match s.wordStartLeft with
      | none => some p
      | some x => some x
    let s1 : MeasureState :=
      { s with wordStartLeft := wsl,
               currentWord := s.currentWord ++ [{ char := c, left := p }] }
    if isBreakCU c then
      { pushWord s1 with noSpaceBeforeNext := true }
    else s1

/-- The inner loop of `measureOriginalText` over one text node: the
position oracle `pos` gives `range.getBoundingClientRect().left` for the
sub-range `[i, i+1)` of the node. -/
def measureNode (pos : Nat → ℚ) (s : MeasureState) (text : List Nat) :
    MeasureState :=
  text.enum.foldl (fun st ic => measureChar (pos ic.1) st ic.2) s

/-- `measureOriginalText`: walk every text node of the subtree in
document order, then flush the last word.  `pos n i` is the measured
left coordinate of code unit `i` of text node `n`. -/
def measureOriginalText (pos : Nat → Nat → ℚ) (nodes : List (List Nat)) :
    List MeasuredWord :=
  let s := nodes.enum.foldl
    (fun st nt => measureNode (pos nt.1) st nt.2)
    { words := [], currentWord := [], wordStartLeft := none,
      noSpaceBeforeNext := false }
  (pushWord s).words

/-- The characters of all measured words, concatenated in document
order. -/
def concatUnits (ws : List MeasuredWord) : List Nat :=
  ws.flatMap (fun w => w.chars.map (fun mc => mc.char))

/-- `SplitTextOptions`: `splitBy` is declared by the interface but never
read by the implementation; the class names default to `split-char`,
`split-word`, `split-line`. -/
structure SplitTextOptions where
  splitBy : Option (List Nat)
  charClass : List Nat
  wordClass : List Nat
  lineClass : List Nat
deriving DecidableEq, Repr

/-- A character span produced by `createSpan(charClass, charIndex)`:
its text content, class, `data-index`, the `data-expected-gap`
annotation, and the `margin-left` style written by the kerning step.
(The `display: inline-block` styling is presentational and not
modelled.) -/
structure CharSpan where
  char : Nat
  className : List Nat
  index : Nat
  expectedGap : Option ℚ
  marginLeft : Option ℚ
deriving DecidableEq, Repr

/-- A word span: its character spans, class, `data-index`, and whether
it was placed in `noSpaceBeforeSet` (the set is keyed by span identity,
so membership is exactly this per-span flag). -/
structure WordSpan where
  chars : List CharSpan
  className : List Nat
  index : Nat
  noSpaceBefore : Bool
deriving DecidableEq, Repr

/-- A child of the container (or of a line span): a word span or a
literal space text node. -/
inductive DomNode where
  | word (w : WordSpan)
  | space
deriving DecidableEq, Repr

/-- A line span: its interleaved children and `data-index`.  (Line spans
are created with `display: block`, again not modelled.) -/
structure LineSpan where
  children : List DomNode
  className : List Nat
  index : Nat
deriving DecidableEq, Repr

/-- STEP 2 of `splitText`: build one word span.  Characters after the
first carry `data-expected-gap`, the distance from the previous
character's original left coordinate. -/
def buildWordSpan (opts : SplitTextOptions) (wordIndex : Nat)
    (mw : MeasuredWord) : WordSpan :=
  { chars := mw.chars.enum.map (fun p =>
      { char := p.2.char,
        className := opts.charClass,
        index := p.1,
        expectedGap :=
          match p.1, mw.chars.get? (p.1 - 1) with
          | 0, _ => none
          | Nat.succ _, some prev => some (p.2.left - prev.left)
          | Nat.succ _, none => none,
        marginLeft := none }),
    className := opts.wordClass,
    index := wordIndex,
    noSpaceBefore := mw.noSpaceBefore }

/-- `noSpaceBeforeSet.has(allWords[idx + 1])`, with `false` when there
is no next word. -/
def nextNoSpace (ws : List WordSpan) (i : Nat) : Bool :=
  match ws.get? (i + 1) with
  | some w2 => w2.noSpaceBefore
  | none => false

/-- STEP 3 (and the identical loop of STEP 6): append each word span,
followed by a literal space text node unless the word is the last one or
the next word is a dash continuation. -/
def interleaveWords (ws : List WordSpan) : List DomNode :=
  (List.range ws.length).flatMap (fun i =>
    match ws.get? i with
    | none => []
    | some w =>
      if decide (i < ws.length - 1) && !(nextNoSpace ws i) then
        [DomNode.word w, DomNode.space]
      else [DomNode.word w])

/-- `Math.round(delta * 100) / 100`: JavaScript `Math.round` rounds half
toward positive infinity. -/
def round2 (delta : ℚ) : ℚ := ((⌊delta * 100 + 1 / 2⌋ : ℤ) : ℚ) / 100

/-- STEP 4 of `splitText` on one word span: words with fewer than two
character spans are skipped; otherwise all current left positions are
measured in one pass (the oracle `cpos`), and every character at index
`i ≥ 1` still carrying `data-expected-gap` gets `margin-left` set to the
rounded delta when `|delta| < 20`, and its annotation removed either
way.  The in-place mutation of the span objects is modelled by mapping
over the list. -/
def applyKerningWord (cpos : Nat → ℚ) (w : WordSpan) : WordSpan :=
  if w.chars.length < 2 then w
  else
    { w with chars := w.chars.enum.map (fun p =>
        match p.1 with
        | 0 => p.2
        | Nat.succ j =>
          match p.2.expectedGap with
          | none => p.2
          | some originalGap =>
            let currentGap := cpos (j + 1) - cpos j
            let delta := originalGap - currentGap
            { p.2 with
              expectedGap := none,
              marginLeft :=
                if |delta| < 20 then some (round2 delta)
                else p.2.marginLeft }) }

/-- `Math.round` of a layout coordinate, as used on `rect.top`. -/
def jsRound (x : ℚ) : ℤ := ⌊x + 1 / 2⌋

/-- The mutable state of STEP 5: `lineGroups`, `currentLine`,
`currentY`. -/
structure LineState where
  lineGroups : List (List WordSpan)
  currentLine : List WordSpan
  currentY : Option ℤ
deriving DecidableEq, Repr

/-- One iteration of STEP 5 for a word whose rounded top coordinate is
`wordY`: the first word fixes the reference; later words join the
current line when `|wordY - currentY| < 5` and otherwise start a new
line (updating the reference). -/
def lineStep (wordY : ℤ) (s : LineState) (w : WordSpan) : LineState :=
  match s.currentY with
  | none =>
    { s with currentLine := s.currentLine ++ [w], currentY := some wordY }
  | some y =>
    if |wordY - y| < 5 then { s with currentLine := s.currentLine ++ [w] }
    else
      { lineGroups := s.lineGroups ++ [s.currentLine],
        currentLine := [w],
        currentY := some wordY }

/-- STEP 5 of `splitText`: group the word spans into lines by rounded
top coordinate (`wtop i` is `allWords[i].getBoundingClientRect().top`),
flushing the trailing line if non-empty. -/
def detectLines (wtop : Nat → ℚ) (ws : List WordSpan) :
    List (List WordSpan) :=
  let s := ws.enum.foldl
    (fun st p => lineStep (jsRound (wtop p.1)) st p.2)
    { lineGroups := [], currentLine := [], currentY := none }
  if 0 < s.currentLine.length then s.lineGroups ++ [s.currentLine]
  else s.lineGroups

/-- STEP 6 of `splitText`: wrap each line group in a line span whose
children repeat the space interleaving rule of STEP 3. -/
def buildLines (opts : SplitTextOptions) (groups : List (List WordSpan)) :
    List LineSpan :=
  groups.enum.map (fun p =>
    { children := interleaveWords p.2,
      className := opts.lineClass,
      index := p.1 })

/-- The word spans among a list of container children, in order. -/
def wordChildren (ns : List DomNode) : List WordSpan :=
  ns.filterMap (fun n =>
    match n with
    | DomNode.word w => some w
    | DomNode.space => none)

/-- The markup content of the target element as it evolves through the
pipeline: the original subtree (with its text nodes), the cleared state
(`element.textContent = ""`), the flat word sequence of STEP 3, and the
line-wrapped tree of STEP 6.  `element.innerHTML` reads and writes this
value, so equality of `Content` models byte-identical markup. -/
inductive Content where
  | original (nodes : List (List Nat))
  | cleared
  | flatWords (ns : List DomNode)
  | linesDom (ls : List LineSpan)
deriving DecidableEq, Repr

/-- The text nodes of a content tree, in document order, as enumerated
by the tree walker.  Each character span contributes a one-code-unit
text node and each separator a literal space. -/
def textNodesOf (c : Content) : List (List Nat) :=
  match c with
  | Content.original nodes => nodes
  | Content.cleared => []
  | Content.flatWords ns => ns.flatMap (fun n =>
      match n with
      | DomNode.word w => w.chars.map (fun cs => [cs.char])
      | DomNode.space => [[32]])
  | Content.linesDom ls => ls.flatMap (fun l =>
      l.children.flatMap (fun n =>
        match n with
        | DomNode.word w => w.chars.map (fun cs => [cs.char])
        | DomNode.space => [[32]]))

/-- The state of the target element that `splitText` reads or writes:
its markup, its `aria-label` attribute, and whether ligature rendering
is suppressed for its subtree (for example by
`font-variant-ligatures: none`; the implementation never writes any
such style). -/
structure Elem where
  content : Content
  ariaLabel : Option (List Nat)
  ligaturesSuppressed : Bool
deriving DecidableEq, Repr

/-- The measurement oracles supplied by the host rendering surface:
`pos n i` is the original left coordinate of code unit `i` of text node
`n` (STEP 1); `cpos w i` is the post-insertion left coordinate of
character `i` of word `w` (STEP 4); `wtop w` is the top coordinate of
word `w` after compensation (STEP 5). -/
structure SplitParams where
  pos : Nat → Nat → ℚ
  cpos : Nat → Nat → ℚ
  wtop : Nat → ℚ

/-- Everything `splitText` produces: the returned collections, the
warnings written to the console (the implementation writes none), the
final element state, and the `originalHTML` snapshot captured by the
returned `revert` closure. -/
structure SplitOutcome where
  chars : List CharSpan
  words : List WordSpan
  lines : List LineSpan
  warnings : List (List Nat)
  elem : Elem
  originalHTML : Content
deriving Repr

/-- The `splitText` pipeline of `src/unnamed/part_001`.  In order: the
`originalHTML` snapshot and `textContent` read, the `aria-label`
assignment, STEP 1 measurement, the clearing of the element, STEP 2
span construction, STEP 3 insertion (transiently `Content.flatWords`),
STEP 4 kerning on the same span objects (modelled functionally), STEP 5
line detection, and STEP 6 re-wrapping, which leaves
`Content.linesDom` in the element. -/
def splitTextM (opts : SplitTextOptions) (env : SplitParams) (e : Elem) :
    SplitOutcome :=
  let originalHTML := e.content
  let text := (textNodesOf e.content).flatten
  let measuredWords := measureOriginalText env.pos (textNodesOf e.content)
  let allWords0 := measuredWords.enum.map
    (fun p => buildWordSpan opts p.1 p.2)
  let allWords := allWords0.enum.map
    (fun p => applyKerningWord (env.cpos p.1) p.2)
  let lineGroups := detectLines env.wtop allWords
  let allLines := buildLines opts lineGroups
  { chars := allWords.flatMap (fun w => w.chars),
    words := allWords,
    lines := allLines,
    warnings := [],
    elem := { e with ariaLabel := some text,
                     content := Content.linesDom allLines },
    originalHTML := originalHTML }

/-- The `revert` closure returned by `splitText`, applied to the element
in its current state: `element.innerHTML = originalHTML` and
`element.removeAttribute("aria-label")`. -/
def splitTextRevert (o : SplitOutcome) (e : Elem) : Elem :=
  { e with content := o.originalHTML, ariaLabel := none }

/-- The characters accumulated so far by the measurement walk: those in
already emitted words followed by those of the word in progress. -/
def stateUnits (s : MeasureState) : List Nat :=
  concatUnits s.words ++ s.currentWord.map (fun mc => mc.char)


/-! ### Concrete fixtures -/

/-- The default option values: `splitBy` unset, class names
`split-char`, `split-word`, `split-line` (as UTF-16 code units). -/
def defaultOptions : SplitTextOptions :=
  { splitBy := none,
    charClass := [115, 112, 108, 105, 116, 45, 99, 104, 97, 114],
    wordClass := [115, 112, 108, 105, 116, 45, 119, 111, 114, 100],
    lineClass := [115, 112, 108, 105, 116, 45, 108, 105, 110, 101] }

/-- Measurement oracles that report coordinate `0` everywhere. -/
def zeroParams : SplitParams :=
  { pos := fun _ _ => 0, cpos := fun _ _ => 0, wtop := fun _ => 0 }

/-- The UTF-16 code units of `"Hello 👨‍👩‍👦 World 🎉✨"`: the family
emoji is U+1F468 ZWJ U+1F469 ZWJ U+1F466, i.e. the eight code units
55357 56424 8205 55357 56425 8205 55357 56422; the party popper is the
surrogate pair 55356 57225 and the sparkles the single unit 10024. -/
def helloFamilyText : List Nat :=
  [72, 101, 108, 108, 111, 32,
   55357, 56424, 8205, 55357, 56425, 8205, 55357, 56422, 32,
   87, 111, 114, 108, 100, 32,
   55356, 57225, 10024]

/-- An element whose only text is whitespace (space, newline, tab):
no measurable text. -/
def emptyElem : Elem :=
  { content := Content.original [[32, 10, 9]],
    ariaLabel := none,
    ligaturesSuppressed := false }

/-- A plain word span fixture. -/
def wordA : WordSpan :=
  { chars := [], className := [], index := 0, noSpaceBefore := false }

/-- A second plain word span fixture. -/
def wordB : WordSpan :=
  { chars := [], className := [], index := 1, noSpaceBefore := false }

/-- A word span flagged as a dash continuation. -/
def wordNB : WordSpan :=
  { chars := [], className := [], index := 1, noSpaceBefore := true }

/-- A first character span for the kerning witness (no annotation). -/
def kernChar0 : CharSpan :=
  { char := 72, className := [], index := 0,
    expectedGap := none, marginLeft := none }

/-- A second character span for the kerning witness, carrying the
expected-gap annotation `3`. -/
def kernChar1 : CharSpan :=
  { char := 105, className := [], index := 1,
    expectedGap := some 3, marginLeft := none }

/-- A two-character word span for the kerning witness. -/
def kernWord : WordSpan :=
  { chars := [kernChar0, kernChar1], className := [], index := 0,
    noSpaceBefore := false }

/-- Post-insertion positions for the kerning witness: character `i`
sits at coordinate `i`, so the current gap is `1` and the delta is
`3 - 1 = 2`. -/
def kernPos : Nat → ℚ := fun i => (i : ℚ)


/-! ### Helper lemmas -/

theorem stateUnits_pushWord (s : MeasureState) :
    stateUnits (pushWord s) = stateUnits s := by
  unfold pushWord stateUnits concatUnits
  split
  · simp
  · rfl

theorem pushWord_currentWord (s : MeasureState) :
    (pushWord s).currentWord = [] := by
  unfold pushWord
  split
  · rfl
  · rename_i h
    simp only [not_lt, Nat.le_zero, List.length_eq_zero] at h
    exact h

theorem stateUnits_measureChar (p : ℚ) (s : MeasureState) (c : Nat) :
    stateUnits (measureChar p s c) =
      stateUnits s ++ (if isWhitespaceCU c then [] else [c]) := by
  unfold measureChar
  by_cases hw : isWhitespaceCU c
  · simp [hw, stateUnits_pushWord]
  · simp only [hw, if_neg, Bool.false_eq_true, not_false_eq_true, if_false]
    by_cases hb : isBreakCU c
    · simp only [hb, if_pos]
      have h1 : stateUnits { pushWord
          { s with
            wordStartLeft :=
              match s.wordStartLeft with
              | none => some p
              | some x => some x,
            currentWord := s.currentWord ++ [{ char := c, left := p }] } with
          noSpaceBeforeNext := true } =
          stateUnits (pushWord
          { s with
            wordStartLeft :=
              match s.wordStartLeft with
              | none => some p
              | some x => some x,
            currentWord := s.currentWord ++ [{ char := c, left := p }] }) := by
        unfold stateUnits concatUnits pushWord
        split <;> rfl
      rw [h1, stateUnits_pushWord]
      unfold stateUnits
      simp
    · simp only [hb, Bool.false_eq_true, if_false]
      unfold stateUnits
      simp

theorem stateUnits_foldChars (pos : Nat → ℚ) (l : List (Nat × Nat))
    (s : MeasureState) :
    stateUnits (l.foldl (fun st ic => measureChar (pos ic.1) st ic.2) s) =
      stateUnits s ++
        (l.map Prod.snd).filter (fun c => !isWhitespaceCU c) := by
  induction l generalizing s with
  | nil => simp
  | cons hd tl ih =>
    simp only [List.foldl_cons, List.map_cons, List.filter_cons]
    rw [ih, stateUnits_measureChar]
    by_cases hw : isWhitespaceCU hd.2 <;> simp [hw]

theorem stateUnits_measureNode (pos : Nat → ℚ) (s : MeasureState)
    (t : List Nat) :
    stateUnits (measureNode pos s t) =
      stateUnits s ++ t.filter (fun c => !isWhitespaceCU c) := by
  unfold measureNode
  rw [stateUnits_foldChars, List.enum_map_snd]

theorem stateUnits_foldNodes (pos : Nat → Nat → ℚ)
    (l : List (Nat × List Nat)) (s : MeasureState) :
    stateUnits (l.foldl (fun st nt => measureNode (pos nt.1) st nt.2) s) =
      stateUnits s ++
        ((l.map Prod.snd).flatten).filter (fun c => !isWhitespaceCU c) := by
  induction l generalizing s with
  | nil => simp
  | cons hd tl ih =>
    simp only [List.foldl_cons, List.map_cons, List.flatten_cons,
      List.filter_append]
    rw [ih, stateUnits_measureNode, List.append_assoc]

theorem concatUnits_measureOriginalText (pos : Nat → Nat → ℚ)
    (nodes : List (List Nat)) :
    concatUnits (measureOriginalText pos nodes) =
      nodes.flatten.filter (fun c => !isWhitespaceCU c) := by
  unfold measureOriginalText
  have h1 : ∀ s : MeasureState,
      concatUnits (pushWord s).words = stateUnits (pushWord s) := by
    intro s
    unfold stateUnits
    rw [pushWord_currentWord]
    simp
  rw [h1, stateUnits_pushWord, stateUnits_foldNodes, List.enum_map_snd]
  rfl

theorem interleaveWords_nil : interleaveWords [] = [] := rfl

theorem interleaveWords_single (w : WordSpan) :
    interleaveWords [w] = [DomNode.word w] := rfl


theorem interleaveWords_cons2 (w w2 : WordSpan) (rest : List WordSpan) :
    interleaveWords (w :: w2 :: rest) =
      DomNode.word w ::
        ((if w2.noSpaceBefore then [] else [DomNode.space]) ++
          interleaveWords (w2 :: rest)) := by
  unfold interleaveWords
  have hlen : (w :: w2 :: rest).length = (w2 :: rest).length + 1 := by simp
  rw [hlen, List.range_succ_eq_map, List.flatMap_cons, List.flatMap_map]
  have hfun : (fun i =>
      match (w :: w2 :: rest).get? (Nat.succ i) with
      | none => []
      | some wx =>
        if decide (Nat.succ i < (w2 :: rest).length + 1 - 1) &&
            !(nextNoSpace (w :: w2 :: rest) (Nat.succ i)) then
          [DomNode.word wx, DomNode.space]
        else [DomNode.word wx]) =
      (fun i =>
      match (w2 :: rest).get? i with
      | none => []
      | some wx =>
        if decide (i < (w2 :: rest).length - 1) &&
            !(nextNoSpace (w2 :: rest) i) then
          [DomNode.word wx, DomNode.space]
        else [DomNode.word wx]) := by
    funext i
    have hget : (w :: w2 :: rest).get? (Nat.succ i) = (w2 :: rest).get? i := rfl
    have hnext : nextNoSpace (w :: w2 :: rest) (Nat.succ i) =
        nextNoSpace (w2 :: rest) i := rfl
    have hdec : decide (Nat.succ i < (w2 :: rest).length + 1 - 1) =
        decide (i < (w2 :: rest).length - 1) := by
      simp [Nat.succ_lt_succ_iff]
    rw [hget, hnext, hdec]
  rw [hfun]
  have h0 : (match (w :: w2 :: rest).get? 0 with
      | none => ([] : List DomNode)
      | some wx =>
        if decide (0 < (w2 :: rest).length + 1 - 1) &&
            !(nextNoSpace (w :: w2 :: rest) 0) then
          [DomNode.word wx, DomNode.space]
        else [DomNode.word wx]) =
      DomNode.word w ::
        (if w2.noSpaceBefore then [] else [DomNode.space]) := by
    have hn0 : nextNoSpace (w :: w2 :: rest) 0 = w2.noSpaceBefore := rfl
    simp only [List.get?_cons_zero, List.length_cons, hn0]
    by_cases hns : w2.noSpaceBefore <;> simp [hns]
  rw [h0]
  simp

theorem wordChildren_interleaveWords (ws : List WordSpan) :
    wordChildren (interleaveWords ws) = ws := by
  induction ws with
  | nil => rfl
  | cons w tl ih =>
    cases tl with
    | nil => rfl
    | cons w2 rest =>
      rw [interleaveWords_cons2]
      unfold wordChildren at ih ⊢
      simp only [List.filterMap_cons, List.filterMap_append]
      rw [ih]
      by_cases hns : w2.noSpaceBefore <;> simp [hns]

theorem lineStep_flatten (y : ℤ) (s : LineState) (w : WordSpan) :
    (lineStep y s w).lineGroups.flatten ++ (lineStep y s w).currentLine =
      s.lineGroups.flatten ++ s.currentLine ++ [w] := by
  unfold lineStep
  cases s.currentY with
  | none => simp
  | some yc =>
    by_cases h : |y - yc| < 5 <;> simp [h]

theorem detectLines_foldl_flatten (wtop : Nat → ℚ)
    (l : List (Nat × WordSpan)) (s : LineState) :
    (l.foldl (fun st p => lineStep (jsRound (wtop p.1)) st p.2)
        s).lineGroups.flatten ++
      (l.foldl (fun st p => lineStep (jsRound (wtop p.1)) st p.2)
        s).currentLine =
      s.lineGroups.flatten ++ s.currentLine ++ l.map Prod.snd := by
  induction l generalizing s with
  | nil => simp
  | cons hd tl ih =>
    simp only [List.foldl_cons, List.map_cons]
    rw [ih, lineStep_flatten]
    simp

theorem detectLines_flatten (wtop : Nat → ℚ) (ws : List WordSpan) :
    (detectLines wtop ws).flatten = ws := by
  unfold detectLines
  dsimp only
  have h := detectLines_foldl_flatten wtop ws.enum
    { lineGroups := [], currentLine := [], currentY := none }
  rw [List.enum_map_snd] at h
  simp only [List.flatten_nil, List.nil_append] at h
  split
  · rw [List.flatten_append]
    simpa using h
  · rename_i hlen
    simp only [not_lt, Nat.le_zero, List.length_eq_zero] at hlen
    rw [hlen, List.append_nil] at h
    exact h

theorem buildLines_wordChildren (opts : SplitTextOptions)
    (groups : List (List WordSpan)) :
    (buildLines opts groups).flatMap (fun l => wordChildren l.children) =
      groups.flatten := by
  unfold buildLines
  have h : ∀ (n : Nat) (gs : List (List WordSpan)),
      ((List.enumFrom n gs).map (fun p =>
        ({ children := interleaveWords p.2,
           className := opts.lineClass,
           index := p.1 } : LineSpan))).flatMap
          (fun l => wordChildren l.children) = gs.flatten := by
    intro n gs
    induction gs generalizing n with
    | nil => rfl
    | cons g tl ih =>
      simp only [List.enumFrom, List.map_cons, List.flatMap_cons,
        List.flatten_cons]
      rw [wordChildren_interleaveWords, ih]
  exact h 0 groups

/-! ### Claims -/

/-- C1: for every target element and every configuration, the returned
`revert` restores the element's pre-split markup snapshot byte
identically, and a second `revert` is a no-op that leaves the element
unchanged (the model is total, so no call can throw). -/
theorem c1_revert_restores_original_markup (opts : SplitTextOptions)
    (env : SplitParams) (e : Elem) :
    (splitTextRevert (splitTextM opts env e)
        ((splitTextM opts env e).elem)).content = e.content ∧
    ∀ x : Elem,
      splitTextRevert (splitTextM opts env e)
          (splitTextRevert (splitTextM opts env e) x) =
        splitTextRevert (splitTextM opts env e) x := by
  exact ⟨rfl, fun x => rfl⟩

/-- C9: every split, for every configuration, writes the element's full
original plain text into its `aria-label` attribute, and `revert`
removes the attribute again. -/
theorem c9_aria_label_set_then_removed (opts : SplitTextOptions)
    (env : SplitParams) (e : Elem) :
    (splitTextM opts env e).elem.ariaLabel =
      some ((textNodesOf e.content).flatten) ∧
    (splitTextRevert (splitTextM opts env e)
        ((splitTextM opts env e).elem)).ariaLabel = none := by
  exact ⟨rfl, rfl⟩

/-- C6: contrary to the claim (and to the documentation earlier in the
same source file), the implementation never suppresses ligature
rendering: the ligature state of the element is unchanged by the split
and by `revert`, for every input and configuration. -/
theorem c6_ligatures_never_suppressed (opts : SplitTextOptions)
    (env : SplitParams) (e : Elem) :
    (splitTextM opts env e).elem.ligaturesSuppressed =
      e.ligaturesSuppressed ∧
    ∀ x : Elem,
      (splitTextRevert (splitTextM opts env e) x).ligaturesSuppressed =
        x.ligaturesSuppressed := by
  exact ⟨rfl, fun x => rfl⟩

/-- C10: the returned lines partition the returned words: concatenating
the word-span children of all line spans, in order, yields exactly the
words collection in its original order. -/
theorem c10_lines_partition_words (opts : SplitTextOptions)
    (env : SplitParams) (e : Elem) :
    ((splitTextM opts env e).lines).flatMap
        (fun l => wordChildren l.children) =
      (splitTextM opts env e).words := by
  unfold splitTextM
  dsimp only
  rw [buildLines_wordChildren, detectLines_flatten]

/-- C2 counterexample: for the single text node `"a b"` (with any
position oracle), concatenating the characters of all measured atomic
units gives `"ab"`, not the original text `"a b"`: whitespace is
consumed as a boundary, never emitted as a unit. -/
theorem c2_whitespace_not_reproduced :
    concatUnits (measureOriginalText (fun _ _ => 0) [[97, 32, 98]]) ≠
      [97, 32, 98] := by
  decide

/-- C2 (amended): concatenating the characters of all measured
AtomicUnits, in document order, reproduces the element's original text
with every space, tab and newline removed. -/
theorem c2_concat_reproduces_text_without_whitespace
    (pos : Nat → Nat → ℚ) (nodes : List (List Nat)) :
    concatUnits (measureOriginalText pos nodes) =
      nodes.flatten.filter (fun c => !isWhitespaceCU c) :=
  concatUnits_measureOriginalText pos nodes

/-- C3: contrary to the claim, the measurement loop iterates UTF-16
code units (`text[i]`), not grapheme clusters: segmenting
`"Hello 👨‍👩‍👦 World 🎉✨"` yields a word of 8 atomic units for the
family emoji (its surrogate halves and joiners), not exactly one. -/
theorem c3_family_emoji_split_into_code_units :
    ((measureOriginalText (fun _ _ => 0) [helloFamilyText]).map
        (fun w => w.chars.length)) = [5, 8, 5, 3] ∧
    ((measureOriginalText (fun _ _ => 0) [helloFamilyText]).map
        (fun w => w.chars.length)).get? 1 ≠ some 1 := by
  constructor <;> decide

/-- C8: with no measurable text (only whitespace), `splitText` returns
an inert handle whose `chars`, `words` and `lines` are all empty and
cannot throw; but contrary to the claim it emits no warning — the
implementation contains no warning path at all, on any input. -/
theorem c8_empty_content_inert_but_no_warning :
    (splitTextM defaultOptions zeroParams emptyElem).chars = [] ∧
    (splitTextM defaultOptions zeroParams emptyElem).words = [] ∧
    (splitTextM defaultOptions zeroParams emptyElem).lines = [] ∧
    (splitTextM defaultOptions zeroParams emptyElem).warnings = [] ∧
    ∀ (opts : SplitTextOptions) (env : SplitParams) (e : Elem),
      (splitTextM opts env e).warnings = [] := by
  exact ⟨rfl, rfl, rfl, rfl, fun _ _ _ => rfl⟩

/-- C5: contrary to the claim, line clustering uses the fixed tolerance
`5` and ignores the font size: two words whose rounded tops differ by
20 (or 30) are placed on two lines, and only a difference below 5
keeps them on one line. -/
theorem c5_line_tolerance_is_fixed_five :
    (detectLines (fun i => 20 * i) [wordA, wordB]).length = 2 ∧
    (detectLines (fun i => 30 * i) [wordA, wordB]).length = 2 ∧
    (detectLines (fun i => 4 * i) [wordA, wordB]).length = 1 := by
  refine ⟨?_, ?_, ?_⟩ <;>
    norm_num [detectLines, lineStep, jsRound, List.enum, List.enumFrom]

theorem enumFrom_get? {α : Type} (n : Nat) (l : List α) (i : Nat) :
    (List.enumFrom n l).get? i = (l.get? i).map (fun a => (n + i, a)) := by
  induction l generalizing n i with
  | nil => simp [List.enumFrom]
  | cons a t ih =>
    cases i with
    | zero => simp [List.enumFrom]
    | succ j =>
      simp only [List.enumFrom, List.get?_cons_succ, ih (n + 1) j]
      cases t.get? j <;> simp [Nat.add_assoc, Nat.add_comm 1 j]

theorem enum_get? {α : Type} (l : List α) (i : Nat) :
    l.enum.get? i = (l.get? i).map (fun a => (i, a)) := by
  have h := enumFrom_get? 0 l i
  simp only [Nat.zero_add] at h
  exact h

/-- C4: in kerning compensation, for a word wrapper with at least two
character spans and a character at index `i ≥ 1` carrying the
expected-gap annotation `g`, with `delta = g - (pos i - pos (i-1))`:
the character gets `margin-left` equal to `delta` rounded to two
decimals exactly when `|delta| < 20`; at or above the bound its margin
is left untouched, the annotation is removed either way, and the word
keeps all of its characters, so the rest of the split proceeds. -/
theorem c4_kerning_sanity_bound (cpos : Nat → ℚ) (w : WordSpan)
    (i : Nat) (c : CharSpan) (g delta : ℚ)
    (hlen : 2 ≤ w.chars.length) (hi : 1 ≤ i)
    (hc : w.chars.get? i = some c) (hg : c.expectedGap = some g)
    (hdelta : delta = g - (cpos i - cpos (i - 1))) :
    (applyKerningWord cpos w).chars.get? i =
      some { c with
             expectedGap := none,
             marginLeft :=
               if |delta| < 20 then some (round2 delta)
               else c.marginLeft } ∧
    (applyKerningWord cpos w).chars.length = w.chars.length := by
  have hnot : ¬ w.chars.length < 2 := by omega
  constructor
  · unfold applyKerningWord
    rw [if_neg hnot]
    simp only [List.get?_map, enum_get?, hc, Option.map_some']
    cases i with
    | zero => omega
    | succ j =>
      dsimp only
      rw [hg]
      dsimp only
      rw [hdelta]
      simp [Nat.succ_sub_one]
  · unfold applyKerningWord
    rw [if_neg hnot]
    simp

/-- C4 witness: a concrete two-character word with annotation `3` and
measured gap `1`, so `delta = 2` is within the bound and the margin
becomes `2`. -/
theorem c4_kerning_sanity_bound_witness :
    (applyKerningWord kernPos kernWord).chars.get? 1 =
      some { char := 105, className := [], index := 1,
             expectedGap := none, marginLeft := some 2 } := by
  have h := (c4_kerning_sanity_bound kernPos kernWord 1 kernChar1 3 2
    (by decide) (by decide) (by decide) (by decide)
    (by norm_num [kernPos])).1
  rw [h]
  norm_num [kernChar1, round2]

/-- C7: a break character (em dash or en dash) closes the current word
with that character included as its last unit and flags the next word
with `noSpaceBefore` (any word flushed later inherits the pending
flag); and when words are appended back, a literal space separator is
placed between consecutive words exactly when the following word is not
flagged `noSpaceBefore`. -/
theorem c7_break_chars_and_space_interleaving :
    (∀ (p : ℚ) (s : MeasureState) (c : Nat), isBreakCU c = true →
      (measureChar p s c).words =
        s.words ++
          [{ chars := s.currentWord ++ [{ char := c, left := p }],
             startLeft := s.wordStartLeft.getD p,
             noSpaceBefore := s.noSpaceBeforeNext }] ∧
      (measureChar p s c).currentWord = [] ∧
      (measureChar p s c).noSpaceBeforeNext = true) ∧
    (∀ t : MeasureState, 0 < t.currentWord.length →
      (pushWord t).words =
        t.words ++
          [{ chars := t.currentWord,
             startLeft := t.wordStartLeft.getD 0,
             noSpaceBefore := t.noSpaceBeforeNext }]) ∧
    interleaveWords [] = [] ∧
    (∀ w : WordSpan, interleaveWords [w] = [DomNode.word w]) ∧
    (∀ (w w2 : WordSpan) (rest : List WordSpan),
      interleaveWords (w :: w2 :: rest) =
        DomNode.word w ::
          ((if w2.noSpaceBefore then [] else [DomNode.space]) ++
            interleaveWords (w2 :: rest))) := by
  refine ⟨?_, ?_, interleaveWords_nil, interleaveWords_single,
    interleaveWords_cons2⟩
  · intro p s c hb
    have hcv : c = 8212 ∨ c = 8211 := by
      have hb2 := hb
      simp [isBreakCU] at hb2
      exact hb2
    have hw : isWhitespaceCU c = false := by
      rcases hcv with h | h <;> simp [isWhitespaceCU, h]
    have hsl : (match s.wordStartLeft with
        | none => some p
        | some x => some x : Option ℚ).getD 0 = s.wordStartLeft.getD p := by
      cases s.wordStartLeft <;> rfl
    refine ⟨?_, ?_, ?_⟩ <;>
      · unfold measureChar pushWord
        simp [hw, hb, hsl]
  · intro t ht
    unfold pushWord
    rw [if_pos ht]

/-- C7 witness: the em dash closes the in-progress word `"a—"` and sets
the pending flag, and no space is inserted before a `noSpaceBefore`
word when interleaving. -/
theorem c7_break_chars_and_space_interleaving_witness :
    (measureChar 0
        { words := [], currentWord := [{ char := 97, left := 0 }],
          wordStartLeft := some 0, noSpaceBeforeNext := false }
        8212).noSpaceBeforeNext = true ∧
    interleaveWords [wordA, wordNB] =
      [DomNode.word wordA, DomNode.word wordNB] := by
  have h := c7_break_chars_and_space_interleaving
  constructor
  · exact (h.1 0
      { words := [], currentWord := [{ char := 97, left := 0 }],
        wordStartLeft := some 0, noSpaceBeforeNext := false }
      8212 (by decide)).2.2
  · rw [h.2.2.2.2 wordA wordNB []]
    rw [h.2.2.2.1 wordNB]
    simp [wordNB]
